import Mathlib

/-!
Verification of the numeric and color helpers of `src/util.rs` (the artem
image-to-ASCII converter's utility module).

Modelling conventions, chosen once for the whole file:

* Rust `u32` values are modelled as `ℕ`; the operations that appear in the
  source (`/`, `saturating_sub`, `wrapping_add`, comparison, `min`-style
  selection) are modelled by the corresponding `ℕ` operations, with
  `wrapping_add` made explicit as addition modulo `2^32`.
* A Rust integer division by zero is a panic; functions whose source can
  panic are embedded as `Option`-valued functions returning `none` exactly
  where the source aborts.  Likewise the overflow-checked `usize`
  subtraction `end - start` in `range` is embedded as `none` when it would
  underflow (Rust declares arithmetic underflow a program error and aborts
  under the checked semantics).
* The `f64` arithmetic of `calculate_dimensions` is modelled over `ℚ`.
  The two float-to-`u32` casts of the source are embedded with Rust's
  saturating cast semantics made explicit: division by zero produces
  `+∞`/`NaN`, and a float→`u32` cast clamps to `[0, u32::MAX]`, sends
  `NaN` to `0` and `+∞` to `u32::MAX`.  For every scale factor appearing
  in a claim (`0.42` and `0`) the floor/ceil results of exact rational
  arithmetic coincide with binary64 evaluation, as witnessed by the
  repository's own passing unit tests asserting the very same tuples.
-/

namespace Artem

/-- `u32::MAX` = `u32::max_value()` = 4294967295. -/
def u32Max : ℕ := 4294967295

/-- The modulus of `u32` wrapping arithmetic, `2^32`. -/
def u32Mod : ℕ := 4294967296

/-- Rust enum `ResizingDimension` from `util.rs`: the preferred image resize
direction, either `Width` or `Height`. -/
inductive ResizingDimension where
  | Width
  | Height
deriving DecidableEq

/-- Rust `impl Default for ResizingDimension` returns `Width`. -/
def ResizingDimension.default : ResizingDimension := ResizingDimension.Width

/-- Embedding of the Rust expression `(x as f64 / scale).floor() as u32`
(with `x : u32`).  Over the rationals the quotient is exact; the special
case `scale = 0` reproduces binary64 behaviour: `x / 0.0` is `+∞` for
`x > 0` (cast saturates to `u32::MAX`) and `NaN` for `x = 0` (cast gives
`0`).  For a nonzero scale the cast clamps the floored quotient to
`[0, u32::MAX]` (negative values, e.g. from a negative scale, go to `0`). -/
def floorDivToU32 (x scale : ℚ) : ℕ :=
  if scale = 0 then
    if 0 < x then u32Max else 0
  else
    min u32Max (Int.toNat ⌊x / scale⌋)

/-- Embedding of the Rust expression `(x as f64 * scale).ceil() as u32`
(with `x : u32`).  A product of finite values is finite, so only the
saturating clamp to `[0, u32::MAX]` is needed. -/
def ceilMulToU32 (x scale : ℚ) : ℕ :=
  min u32Max (Int.toNat ⌈x * scale⌉)

/-- Embedding of `calculate_dimensions` from `util.rs`.  Returns `none`
exactly where the Rust code panics with a division by zero: in the `Width`
branch at `width / columns` when `columns = 0` and at `height / tile_height`
when `tile_height = 0`; in the `Height` branch at `height / rows` when
`rows = 0` and at `width / tile_width` when `tile_width = 0`.
`columns.saturating_sub(2)` is `ℕ` subtraction. -/
def calculate_dimensions (target_size height width : ℕ) (scale : ℚ)
    (border : Bool) (dimension : ResizingDimension) :
    Option (ℕ × ℕ × ℕ × ℕ) :=
  match dimension with
  | ResizingDimension.Width =>
      let columns0 := if width > target_size then target_size else width
      let columns := if border then columns0 - 2 else columns0
      if columns = 0 then none
      else
        let tile_width := width / columns
        let tile_height := floorDivToU32 (tile_width : ℚ) scale
        if tile_height = 0 then none
        else
          let rows := height / tile_height
          some (columns, rows, tile_width, tile_height)
  | ResizingDimension.Height =>
      let rows := if height > target_size then target_size else height
      if rows = 0 then none
      else
        let tile_height := height / rows
        let tile_width := ceilMulToU32 (tile_height : ℚ) scale
        if tile_width = 0 then none
        else
          let columns0 := width / tile_width
          let columns := if border then columns0 - 2 else columns0
          some (columns, rows, tile_width, tile_height)

lemma floorDiv_5_042 : floorDivToU32 5 (21 / 50) = 11 := by
  have h : ⌊(5 : ℚ) / (21 / 50)⌋ = 11 := by
    rw [Int.floor_eq_iff]
    norm_num
  unfold floorDivToU32
  rw [if_neg (by norm_num : ¬((21 : ℚ) / 50 = 0)), h]
  decide

lemma ceilMul_5_042 : ceilMulToU32 5 (21 / 50) = 3 := by
  have h : ⌈(5 : ℚ) * (21 / 50)⌉ = 3 := by
    rw [Int.ceil_eq_iff]
    norm_num
  unfold ceilMulToU32
  rw [h]
  decide

lemma floorDiv_zero (x : ℚ) (hx : 0 < x) : floorDivToU32 x 0 = u32Max := by
  unfold floorDivToU32
  rw [if_pos rfl, if_pos hx]

lemma ceilMul_zero (x : ℚ) : ceilMulToU32 x 0 = 0 := by
  unfold ceilMulToU32
  norm_num

/-- Claim C1: for `calculate_dimensions` with target_size=100, height=512,
width=512, scale=0.42, border=false: axis `Width` gives
(columns=100, rows=46, tile_width=5, tile_height=11) and axis `Height`
gives (columns=170, rows=100, tile_width=3, tile_height=5). -/
theorem claim_C1 :
    calculate_dimensions 100 512 512 (42 / 100) false ResizingDimension.Width
      = some (100, 46, 5, 11) ∧
    calculate_dimensions 100 512 512 (42 / 100) false ResizingDimension.Height
      = some (170, 100, 3, 5) := by
  constructor
  · simp only [calculate_dimensions]
    norm_num [floorDiv_5_042]
  · simp only [calculate_dimensions]
    norm_num [ceilMul_5_042]

/-- Claim C2: `calculate_dimensions` fails (returns the embedded panic value
`none`, never a silently wrong tuple) whenever target_size = 0, or width = 0
with axis `Width`, or height = 0 with axis `Height`; in each case the zero
columns/rows count makes the subsequent division abort. -/
theorem claim_C2 :
    (∀ (h w : ℕ) (s : ℚ) (b : Bool) (d : ResizingDimension),
        calculate_dimensions 0 h w s b d = none) ∧
    (∀ (t h : ℕ) (s : ℚ) (b : Bool),
        calculate_dimensions t h 0 s b ResizingDimension.Width = none) ∧
    (∀ (t w : ℕ) (s : ℚ) (b : Bool),
        calculate_dimensions t 0 w s b ResizingDimension.Height = none) := by
  refine ⟨?_, ?_, ?_⟩
  · intro h w s b d
    cases d
    · have h1 : (if w > 0 then (0 : ℕ) else w) = 0 := by
        split <;> omega
      simp only [calculate_dimensions, h1]
      cases b <;> simp
    · have h1 : (if h > 0 then (0 : ℕ) else h) = 0 := by
        split <;> omega
      simp only [calculate_dimensions, h1]
      simp
  · intro t h s b
    have h1 : (if 0 > t then t else (0 : ℕ)) = 0 := by
      split <;> omega
    simp only [calculate_dimensions, h1]
    cases b <;> simp
  · intro t w s b
    have h1 : (if 0 > t then t else (0 : ℕ)) = 0 := by
      split <;> omega
    simp only [calculate_dimensions, h1]
    simp

/-- Claim C3, counterexample to the claim as stated: at
target_size=100, height=4294967295, width=512, scale=0, border=false,
axis `Width` (all dimensions positive), the code returns rows = 1, not
rows = 0: height / 4294967295 = 1 at the maximal u32 height. -/
theorem claim_C3_counterexample :
    calculate_dimensions 100 4294967295 512 0 false ResizingDimension.Width
      ≠ some (100, 0, 5, 4294967295) := by
  simp only [calculate_dimensions]
  norm_num [floorDivToU32, u32Max]

/-- Claim C3, amended: with axis `Width`, scale=0, positive target_size and
width, the tile height saturates to 4294967295 (u32 maximum) and no error is
raised; rows = height / 4294967295, which is 0 for every height strictly
below 4294967295.  Concretely (100, 512, 512, 0, border=false, Width)
returns (100, 0, 5, 4294967295) and with border=true (98, 0, 5, 4294967295). -/
theorem claim_C3 :
    (∀ t h w : ℕ, 0 < t → 0 < w → h < 4294967295 →
      ∃ c tw, 0 < tw ∧
        calculate_dimensions t h w 0 false ResizingDimension.Width
          = some (c, 0, tw, 4294967295)) ∧
    calculate_dimensions 100 512 512 0 false ResizingDimension.Width
      = some (100, 0, 5, 4294967295) ∧
    calculate_dimensions 100 512 512 0 true ResizingDimension.Width
      = some (98, 0, 5, 4294967295) := by
  refine ⟨?_, ?_, ?_⟩
  · intro t h w ht hw hh
    simp only [calculate_dimensions]
    rw [show (if false = true then (if w > t then t else w) - 2
          else if w > t then t else w) = (if w > t then t else w) from rfl]
    have hcpos : 0 < (if w > t then t else w) := by
      split <;> omega
    have hcle : (if w > t then t else w) ≤ w := by
      split <;> omega
    have htw : 0 < w / (if w > t then t else w) := Nat.div_pos hcle hcpos
    have hfd : floorDivToU32 ((w / (if w > t then t else w) : ℕ) : ℚ) 0 = u32Max :=
      floorDiv_zero _ (by exact_mod_cast htw)
    refine ⟨if w > t then t else w, w / (if w > t then t else w), htw, ?_⟩
    rw [if_neg (by omega : ¬(if w > t then t else w) = 0)]
    rw [hfd]
    rw [if_neg (by decide : ¬u32Max = 0)]
    have hrows : h / u32Max = 0 := Nat.div_eq_of_lt (by simpa [u32Max] using hh)
    rw [hrows]
    simp [u32Max]
  · simp only [calculate_dimensions]
    norm_num [floorDivToU32, u32Max]
  · simp only [calculate_dimensions]
    norm_num [floorDivToU32, u32Max]

/-- Claim C3 witness: the general saturating statement instantiated at
target_size=100, height=512, width=512. -/
theorem claim_C3_witness :
    ∃ c tw, 0 < tw ∧
      calculate_dimensions 100 512 512 0 false ResizingDimension.Width
        = some (c, 0, tw, 4294967295) :=
  claim_C3.1 100 512 512 (by decide) (by decide) (by decide)

/-- Claim C10: with axis `Height` and scale=0 (and positive target_size,
height, width), tile_width = ceil(tile_height * 0) = 0 and the following
division width / tile_width aborts the call (embedded as `none`): the
Width-axis saturation behaviour does not apply on the Height axis. -/
theorem claim_C10 (t h w : ℕ) (b : Bool) (ht : 0 < t) (hh : 0 < h)
    (hw : 0 < w) :
    calculate_dimensions t h w 0 b ResizingDimension.Height = none := by
  simp only [calculate_dimensions]
  have hrows : ¬(if h > t then t else h) = 0 := by
    split <;> omega
  rw [if_neg hrows, ceilMul_zero]
  simp

/-- Claim C10 witness: the abort at the concrete input
(target_size=1, height=1, width=1, scale=0, border=false, Height). -/
theorem claim_C10_witness :
    calculate_dimensions 1 1 1 0 false ResizingDimension.Height = none :=
  claim_C10 1 1 1 false (by decide) (by decide) (by decide)

/-- The symbolic color tags a `ColoredString` can carry in `rgb_to_ansi`:
the 16 ANSI colors of the match arms `0`..`15`, plus `normal` for the
uncolored fallback arm `_ => input.normal()`. -/
inductive AnsiColor where
  | black
  | red
  | green
  | yellow
  | blue
  | magenta
  | cyan
  | white
  | brightBlack
  | brightRed
  | brightGreen
  | brightYellow
  | brightBlue
  | brightMagenta
  | brightCyan
  | brightWhite
  | normal
deriving DecidableEq

/-- The fixed `vga_colors` table of `rgb_to_ansi`: 16 RGB triples (VGA
defaults), in source order black, red, green, yellow, blue, magenta, cyan,
white, then the bright counterparts. -/
def vga_colors : List (ℤ × ℤ × ℤ) :=
  [(0, 0, 0), (170, 0, 0), (0, 170, 0), (170, 85, 0),
   (0, 0, 170), (170, 0, 170), (0, 170, 170), (170, 170, 170),
   (128, 128, 128), (255, 0, 0), (0, 255, 0), (255, 255, 0),
   (0, 0, 255), (255, 0, 255), (0, 255, 255), (255, 255, 255)]

/-- The squared Euclidean distance computed in the loop body of
`rgb_to_ansi`: `(r - vga_color[0]).pow(2) + (g - vga_color[1]).pow(2) +
(b - vga_color[2]).pow(2)` on `i32`; for channel values in [0, 255] the
i32 arithmetic cannot overflow, so plain `ℤ` is exact. -/
def distTo (r g b : ℤ) (c : ℤ × ℤ × ℤ) : ℤ :=
  (r - c.1) ^ 2 + (g - c.2.1) ^ 2 + (b - c.2.2) ^ 2

/-- `i32::MAX`, the initial value of `smallest_distance`. -/
def i32Max : ℤ := 2147483647

/-- One iteration of the nearest-color loop of `rgb_to_ansi`: replace the
accumulated (smallest_distance, smallest_distance_index) pair exactly when
the candidate's distance is strictly smaller. -/
def scanStep (r g b : ℤ) (acc : ℤ × ℕ) (p : ℕ × (ℤ × ℤ × ℤ)) : ℤ × ℕ :=
  if distTo r g b p.2 < acc.1 then (distTo r g b p.2, p.1) else acc

/-- Projection keeping only the `smallest_distance_index` component of the
final (smallest_distance, smallest_distance_index) accumulator. -/
def accIndex (acc : ℤ × ℕ) : ℕ := acc.2

/-- The whole loop of `rgb_to_ansi`: fold `scanStep` over the enumerated
palette starting from `smallest_distance = i32::MAX` and
`smallest_distance_index = 7`, and keep the final index. -/
def smallest_distance_index (r g b : ℕ) : ℕ :=
  accIndex (vga_colors.enum.foldl (scanStep (r : ℤ) (g : ℤ) (b : ℤ)) (i32Max, 7))

lemma smallest_distance_index_def (r g b : ℕ) :
    smallest_distance_index r g b
      = accIndex (vga_colors.enum.foldl
          (scanStep (r : ℤ) (g : ℤ) (b : ℤ)) (i32Max, 7)) := rfl

/-- The final `match smallest_distance_index` of `rgb_to_ansi`, sending
indices 0..15 to the 16 color constructors and anything else to the
`input.normal()` fallback. -/
def indexToColor (i : ℕ) : AnsiColor :=
  match i with
  | 0 => AnsiColor.black
  | 1 => AnsiColor.red
  | 2 => AnsiColor.green
  | 3 => AnsiColor.yellow
  | 4 => AnsiColor.blue
  | 5 => AnsiColor.magenta
  | 6 => AnsiColor.cyan
  | 7 => AnsiColor.white
  | 8 => AnsiColor.brightBlack
  | 9 => AnsiColor.brightRed
  | 10 => AnsiColor.brightGreen
  | 11 => AnsiColor.brightYellow
  | 12 => AnsiColor.brightBlue
  | 13 => AnsiColor.brightMagenta
  | 14 => AnsiColor.brightCyan
  | 15 => AnsiColor.brightWhite
  | _ => AnsiColor.normal

/-- Embedding of `rgb_to_ansi` from `util.rs`: a `ColoredString` is the
input text together with its color tag. -/
def rgb_to_ansi (input : String) (r g b : ℕ) : String × AnsiColor :=
  (input, indexToColor (smallest_distance_index r g b))

/-- Index accessor for the palette, used to state nearest-neighbor
properties of the scan. -/
def paletteEntry (j : ℕ) : ℤ × ℤ × ℤ := vga_colors.getD j (0, 0, 0)

lemma foldl_scanStep_spec (r g b : ℤ) :
    ∀ (l : List (ℕ × (ℤ × ℤ × ℤ))) (d : ℤ) (i : ℕ),
      List.Pairwise (fun p q => p.1 < q.1) l →
      (l.foldl (scanStep r g b) (d, i)).1 ≤ d ∧
      (∀ p ∈ l, (l.foldl (scanStep r g b) (d, i)).1 ≤ distTo r g b p.2) ∧
      (l.foldl (scanStep r g b) (d, i) = (d, i) ∨
        ∃ p ∈ l, l.foldl (scanStep r g b) (d, i) = (distTo r g b p.2, p.1) ∧
          distTo r g b p.2 < d ∧
          ∀ q ∈ l, q.1 < p.1 →
            (l.foldl (scanStep r g b) (d, i)).1 < distTo r g b q.2) := by
  intro l
  induction l with
  | nil =>
    intro d i _
    simp
  | cons e l ih =>
    intro d i hpw
    rw [List.pairwise_cons] at hpw
    obtain ⟨he, hl⟩ := hpw
    by_cases hlt : distTo r g b e.2 < d
    · have hstep : scanStep r g b (d, i) e = (distTo r g b e.2, e.1) := by
        unfold scanStep
        rw [if_pos hlt]
      rw [List.foldl_cons, hstep]
      obtain ⟨h1, h2, h3⟩ := ih (distTo r g b e.2) e.1 hl
      refine ⟨le_trans h1 (le_of_lt hlt), ?_, ?_⟩
      · intro p hp
        rcases List.mem_cons.mp hp with rfl | hp
        · exact h1
        · exact h2 p hp
      · rcases h3 with heq | ⟨p, hp, heq, hlt2, hmin⟩
        · refine Or.inr ⟨e, List.mem_cons_self e l, heq, hlt, ?_⟩
          intro q hq hqe
          rcases List.mem_cons.mp hq with rfl | hq
          · exact absurd hqe (lt_irrefl _)
          · exact absurd hqe (not_lt_of_gt (he q hq))
        · refine Or.inr ⟨p, List.mem_cons_of_mem e hp, heq, lt_trans hlt2 hlt, ?_⟩
          intro q hq hqp
          rcases List.mem_cons.mp hq with rfl | hq
          · calc (List.foldl (scanStep r g b) (distTo r g b q.2, q.1) l).1
                = distTo r g b p.2 := by rw [heq]
              _ < distTo r g b q.2 := hlt2
          · exact hmin q hq hqp
    · have hstep : scanStep r g b (d, i) e = (d, i) := by
        unfold scanStep
        rw [if_neg hlt]
      rw [List.foldl_cons, hstep]
      obtain ⟨h1, h2, h3⟩ := ih d i hl
      refine ⟨h1, ?_, ?_⟩
      · intro p hp
        rcases List.mem_cons.mp hp with rfl | hp
        · exact le_trans h1 (not_lt.mp hlt)
        · exact h2 p hp
      · rcases h3 with heq | ⟨p, hp, heq, hlt2, hmin⟩
        · exact Or.inl heq
        · refine Or.inr ⟨p, List.mem_cons_of_mem e hp, heq, hlt2, ?_⟩
          intro q hq hqp
          rcases List.mem_cons.mp hq with rfl | hq
          · calc (List.foldl (scanStep r g b) (d, i) l).1
                = distTo r g b p.2 := by rw [heq]
              _ < d := hlt2
              _ ≤ distTo r g b q.2 := not_lt.mp hlt
          · exact hmin q hq hqp

lemma enum_pairwise :
    List.Pairwise (fun p q => p.1 < q.1) vga_colors.enum := by
  decide

lemma enum_entry_bound :
    ∀ p ∈ vga_colors.enum, p.1 < 16 ∧ p.2 = paletteEntry p.1 := by
  decide

lemma entry_mem_enum : ∀ j < 16, (j, paletteEntry j) ∈ vga_colors.enum := by
  decide

lemma mem_enum_entry0 :
    ((0 : ℕ), ((0 : ℤ), (0 : ℤ), (0 : ℤ))) ∈ vga_colors.enum := by
  decide

lemma dist_entry0_lt_sentinel (r g b : ℕ) (hr : r ≤ 255) (hg : g ≤ 255)
    (hb : b ≤ 255) :
    distTo (r : ℤ) (g : ℤ) (b : ℤ) (0, 0, 0) < i32Max := by
  have hr' : (r : ℤ) ≤ 255 := by exact_mod_cast hr
  have hg' : (g : ℤ) ≤ 255 := by exact_mod_cast hg
  have hb' : (b : ℤ) ≤ 255 := by exact_mod_cast hb
  have h1 : (r : ℤ) ^ 2 ≤ 255 ^ 2 := pow_le_pow_left₀ (by positivity) hr' 2
  have h2 : (g : ℤ) ^ 2 ≤ 255 ^ 2 := pow_le_pow_left₀ (by positivity) hg' 2
  have h3 : (b : ℤ) ^ 2 ≤ 255 ^ 2 := pow_le_pow_left₀ (by positivity) hb' 2
  have key : (r : ℤ) ^ 2 + (g : ℤ) ^ 2 + (b : ℤ) ^ 2 < 2147483647 := by
    norm_num at h1 h2 h3
    linarith
  simpa [distTo, i32Max] using key

lemma smallest_distance_index_spec (r g b : ℕ) (hr : r ≤ 255) (hg : g ≤ 255)
    (hb : b ≤ 255) :
    smallest_distance_index r g b < 16 ∧
    (∀ j < 16,
      distTo (r : ℤ) (g : ℤ) (b : ℤ)
          (paletteEntry (smallest_distance_index r g b))
        ≤ distTo (r : ℤ) (g : ℤ) (b : ℤ) (paletteEntry j)) ∧
    (∀ j < smallest_distance_index r g b,
      distTo (r : ℤ) (g : ℤ) (b : ℤ)
          (paletteEntry (smallest_distance_index r g b))
        < distTo (r : ℤ) (g : ℤ) (b : ℤ) (paletteEntry j)) := by
  obtain ⟨h1, h2, h3⟩ := foldl_scanStep_spec (r : ℤ) (g : ℤ) (b : ℤ)
    vga_colors.enum i32Max 7 enum_pairwise
  rcases h3 with hA | ⟨p, hp, heq, hplt, hmin⟩
  · exfalso
    have h0 := h2 _ mem_enum_entry0
    rw [hA] at h0
    have h0' : i32Max ≤ distTo (r : ℤ) (g : ℤ) (b : ℤ) (0, 0, 0) := by
      simpa using h0
    exact absurd (lt_of_le_of_lt h0' (dist_entry0_lt_sentinel r g b hr hg hb))
      (lt_irrefl _)
  · obtain ⟨hp16, hpeq⟩ := enum_entry_bound p hp
    have hidx : smallest_distance_index r g b = p.1 := by
      rw [smallest_distance_index_def, heq]
      rfl
    refine ⟨?_, ?_, ?_⟩
    · rw [hidx]
      exact hp16
    · intro j hj
      have h2j := h2 _ (entry_mem_enum j hj)
      rw [heq] at h2j
      rw [hidx, ← hpeq]
      simpa using h2j
    · intro j hj
      rw [hidx] at hj
      have hmj := hmin _ (entry_mem_enum j (lt_trans hj hp16)) hj
      rw [heq] at hmj
      rw [hidx, ← hpeq]
      simpa using hmj

set_option maxRecDepth 8000 in
/-- Claim C4: quantizing the exact RGB triple of each of the 16 palette
entries returns the input text tagged with that entry's own color. -/
theorem claim_C4 (s : String) :
    rgb_to_ansi s 0 0 0 = (s, AnsiColor.black) ∧
    rgb_to_ansi s 170 0 0 = (s, AnsiColor.red) ∧
    rgb_to_ansi s 0 170 0 = (s, AnsiColor.green) ∧
    rgb_to_ansi s 170 85 0 = (s, AnsiColor.yellow) ∧
    rgb_to_ansi s 0 0 170 = (s, AnsiColor.blue) ∧
    rgb_to_ansi s 170 0 170 = (s, AnsiColor.magenta) ∧
    rgb_to_ansi s 0 170 170 = (s, AnsiColor.cyan) ∧
    rgb_to_ansi s 170 170 170 = (s, AnsiColor.white) ∧
    rgb_to_ansi s 128 128 128 = (s, AnsiColor.brightBlack) ∧
    rgb_to_ansi s 255 0 0 = (s, AnsiColor.brightRed) ∧
    rgb_to_ansi s 0 255 0 = (s, AnsiColor.brightGreen) ∧
    rgb_to_ansi s 255 255 0 = (s, AnsiColor.brightYellow) ∧
    rgb_to_ansi s 0 0 255 = (s, AnsiColor.brightBlue) ∧
    rgb_to_ansi s 255 0 255 = (s, AnsiColor.brightMagenta) ∧
    rgb_to_ansi s 0 255 255 = (s, AnsiColor.brightCyan) ∧
    rgb_to_ansi s 255 255 255 = (s, AnsiColor.brightWhite) :=
  ⟨rfl, rfl, rfl, rfl, rfl, rfl, rfl, rfl,
   rfl, rfl, rfl, rfl, rfl, rfl, rfl, rfl⟩

/-- Claim C5: `rgb_to_ansi` is total and deterministic on `[0,255]^3`: it
returns the input text unchanged tagged with one of the 16 colors; the
`normal` (no color) fallback arm is never reached. -/
theorem claim_C5 (s : String) (r g b : ℕ) (hr : r ≤ 255) (hg : g ≤ 255)
    (hb : b ≤ 255) :
    ∃ c : AnsiColor, c ≠ AnsiColor.normal ∧ rgb_to_ansi s r g b = (s, c) := by
  obtain ⟨h16, -, -⟩ := smallest_distance_index_spec r g b hr hg hb
  have hall : ∀ j < 16, indexToColor j ≠ AnsiColor.normal := by decide
  exact ⟨indexToColor (smallest_distance_index r g b), hall _ h16, rfl⟩

/-- Fixed sample text used by the closed witness instantiations. -/
def sampleText : String := "input"

/-- Claim C5 witness at the concrete input (12, 200, 7). -/
theorem claim_C5_witness :
    ∃ c : AnsiColor, c ≠ AnsiColor.normal ∧
      rgb_to_ansi sampleText 12 200 7 = (sampleText, c) :=
  claim_C5 sampleText 12 200 7 (by decide) (by decide) (by decide)

/-- Claim C6: the nearest-color scan returns an index below 16 whose
palette entry minimizes the squared distance; any strictly lower index has
strictly larger distance (ties keep the lowest index, because only a
strictly smaller distance replaces the current best); and the distance of
the very first entry is below the `i32::MAX` sentinel, so the initial
index 7 is always replaced on the first iteration. -/
theorem claim_C6 (r g b : ℕ) (hr : r ≤ 255) (hg : g ≤ 255) (hb : b ≤ 255) :
    smallest_distance_index r g b < 16 ∧
    (∀ j < 16,
      distTo (r : ℤ) (g : ℤ) (b : ℤ)
          (paletteEntry (smallest_distance_index r g b))
        ≤ distTo (r : ℤ) (g : ℤ) (b : ℤ) (paletteEntry j)) ∧
    (∀ j < smallest_distance_index r g b,
      distTo (r : ℤ) (g : ℤ) (b : ℤ)
          (paletteEntry (smallest_distance_index r g b))
        < distTo (r : ℤ) (g : ℤ) (b : ℤ) (paletteEntry j)) ∧
    distTo (r : ℤ) (g : ℤ) (b : ℤ) (paletteEntry 0) < i32Max := by
  obtain ⟨h16, hmin, hstrict⟩ := smallest_distance_index_spec r g b hr hg hb
  exact ⟨h16, hmin, hstrict, dist_entry0_lt_sentinel r g b hr hg hb⟩

/-- Claim C6 witness at the concrete input (12, 200, 7). -/
theorem claim_C6_witness :
    smallest_distance_index 12 200 7 < 16 ∧
    (∀ j < 16,
      distTo (12 : ℤ) (200 : ℤ) (7 : ℤ)
          (paletteEntry (smallest_distance_index 12 200 7))
        ≤ distTo (12 : ℤ) (200 : ℤ) (7 : ℤ) (paletteEntry j)) ∧
    (∀ j < smallest_distance_index 12 200 7,
      distTo (12 : ℤ) (200 : ℤ) (7 : ℤ)
          (paletteEntry (smallest_distance_index 12 200 7))
        < distTo (12 : ℤ) (200 : ℤ) (7 : ℤ) (paletteEntry j)) ∧
    distTo (12 : ℤ) (200 : ℤ) (7 : ℤ) (paletteEntry 0) < i32Max := by
  have h := claim_C6 12 200 7 (by decide) (by decide) (by decide)
  exact_mod_cast h

/-- `u32` wrapping addition: `a.wrapping_add(b)` is addition modulo `2^32`. -/
def wrappingAdd32 (a b : ℕ) : ℕ := (a + b) % u32Mod

/-- The element stream of `range`: starting from the cursor `r0`, emit the
cursor and advance it by `step` with `u32` wrapping addition, `n` times
(`n` is the `take` count `end - start`). -/
def rangeIter (r0 step : ℕ) : ℕ → List ℕ
  | 0 => []
  | Nat.succ n => r0 :: rangeIter (wrappingAdd32 r0 step) step n

/-- Embedding of `range` from `util.rs`.  The cursor starts at
`end.saturating_sub(1)` with step `u32::max_value()` in reverse mode, and at
`start` with step 1 in forward mode; the stream is truncated to
`end - start` elements.  The `usize` count computation `end - start`
underflows when `end < start`; under Rust's overflow-checked semantics this
aborts, embedded here as `none`. -/
def range (start stop : ℕ) (rev : Bool) : Option (List ℕ) :=
  if stop < start then none
  else
    let p := if rev then (stop - 1, u32Max) else (start, 1)
    some (rangeIter p.1 p.2 (stop - start))

lemma rangeIter_forward :
    ∀ (n r : ℕ), r + n ≤ u32Max → rangeIter r 1 n = List.range' r n := by
  intro n
  induction n with
  | zero =>
    intro r _
    rfl
  | succ n ih =>
    intro r hr
    have hw : wrappingAdd32 r 1 = r + 1 := by
      unfold wrappingAdd32
      exact Nat.mod_eq_of_lt (by simp [u32Max] at hr; simp [u32Mod]; omega)
    rw [rangeIter, hw, List.range'_succ, ih (r + 1) (by omega)]

lemma rangeIter_backward :
    ∀ (n r : ℕ), n ≤ r + 1 → r ≤ u32Max →
      rangeIter r u32Max n = (List.range' (r + 1 - n) n).reverse := by
  intro n
  induction n with
  | zero =>
    intro r _ _
    rfl
  | succ n ih =>
    intro r hn hr
    cases n with
    | zero =>
      rw [rangeIter, rangeIter]
      simp
    | succ m =>
      have hr1 : 1 ≤ r := by omega
      have hw : wrappingAdd32 r u32Max = r - 1 := by
        unfold wrappingAdd32 u32Max u32Mod
        simp only [u32Max] at hr
        omega
      rw [rangeIter, hw, ih (r - 1) (by omega) (by omega)]
      rw [show r - 1 + 1 - (m + 1) = r - (m + 1) from by omega]
      conv_rhs => rw [show r + 1 - (m + 1 + 1) = r - (m + 1) from by omega,
        List.range'_concat]
      rw [List.reverse_append]
      simp only [List.reverse_singleton, List.singleton_append]
      rw [show r - (m + 1) + 1 * (m + 1) = r from by omega]

/-- Claim C7: for every start ≤ end (within the u32 domain), forward
`range` yields exactly start, start+1, ..., end-1 in order and reverse
`range` yields exactly end-1, ..., start in order; in particular
range(0,2,false) = [0,1] and range(0,2,true) = [1,0]. -/
theorem claim_C7 (s e : ℕ) (hse : s ≤ e) (he : e ≤ 4294967295) :
    range s e false = some (List.range' s (e - s)) ∧
    range s e true = some ((List.range' s (e - s)).reverse) := by
  constructor
  · unfold range
    rw [if_neg (by omega)]
    show some (rangeIter s 1 (e - s)) = _
    rw [rangeIter_forward (e - s) s
      (by show s + (e - s) ≤ 4294967295; omega)]
  · unfold range
    rw [if_neg (by omega)]
    show some (rangeIter (e - 1) u32Max (e - s)) = _
    rw [rangeIter_backward (e - s) (e - 1) (by omega)
      (by show e - 1 ≤ 4294967295; omega)]
    rcases Nat.eq_zero_or_pos e with rfl | he1
    · have hs0 : s = 0 := by omega
      subst hs0
      rfl
    · rw [show e - 1 + 1 - (e - s) = s from by omega]

/-- Claim C7 witness: the concrete sequences [0,1] and [1,0] for
range(0,2,false) and range(0,2,true). -/
theorem claim_C7_witness :
    range 0 2 false = some [0, 1] ∧ range 0 2 true = some [1, 0] := by
  have h := claim_C7 0 2 (by decide) (by decide)
  simpa using h

/-- Claim C8: when end < start, the element count `end - start` underflows
and the call is rejected (the embedded overflow-checked subtraction aborts
as `none`) instead of producing any element sequence. -/
theorem claim_C8 (s e : ℕ) (r : Bool) (h : e < s) : range s e r = none := by
  unfold range
  rw [if_pos h]

/-- Claim C8 witness: range(5, 2, false) is rejected. -/
theorem claim_C8_witness : range 5 2 false = none :=
  claim_C8 5 2 false (by decide)

end Artem
